import Mathlib

/-!
Verification of the crew-clock pairing/aggregation engine.

The definitions below are a shallow embedding of the Python source:
`App.py` (`calculate_daily_hours`, `_find_open_in_ts`, `clock_submit`,
`update_weekly_totals_for_week`, `update_all_weeks_summary`) and
`utils.py` (`weekly_buckets`).  Timestamps are modelled as integers
(seconds of the absolute instant); durations in hours are exact
rationals; Python's `round(x, 2)` is modelled as exact round-half-to-even
at two decimal places on rationals.  Calendar bucketing (`%Y-%m-%d` day
keys, ISO week keys) is performed by an external datetime library, so the
aggregators are parametrised over an arbitrary bucketing function
`bucket : ℤ → K`; every theorem holds for all such functions.
-/

namespace CrewClock

/-- Python `str.strip()`: drop whitespace from both ends. -/
def pyStrip (s : String) : String :=
  String.mk (((s.data.dropWhile Char.isWhitespace).reverse.dropWhile
    Char.isWhitespace).reverse)

/-- Python `str.upper()` (ASCII case mapping suffices for the tokens
compared by the source: `IN`, `OUT`). -/
def pyUpper (s : String) : String := String.mk (s.data.map Char.toUpper)

/-- Python `str.lower()`. -/
def pyLower (s : String) : String := String.mk (s.data.map Char.toLower)

/-- Lexicographic code-point comparison of character lists, the order
Python uses to compare strings. -/
def strLeB : List Char → List Char → Bool
  | [], _ => true
  | _ :: _, [] => false
  | a :: as, b :: bs => if a < b then true else if b < a then false else strLeB as bs

/-- Round-half-to-even to the nearest integer, the tie-breaking rule of
Python's `round` builtin (modelled on exact rationals). -/
def roundHalfEven (q : ℚ) : ℤ :=
  if q - ⌊q⌋ < 1/2 then ⌊q⌋
  else if 1/2 < q - ⌊q⌋ then ⌊q⌋ + 1
  else if ⌊q⌋ % 2 = 0 then ⌊q⌋ else ⌊q⌋ + 1

/-- Python `round(q, 2)`: round-half-to-even at two decimal places. -/
def round2 (q : ℚ) : ℚ := (roundHalfEven (q * 100) : ℚ) / 100

/-- First-match lookup in an association list (Python `d[k]` read). -/
def alookup {α β : Type} [DecidableEq α] : List (α × β) → α → Option β
  | [], _ => none
  | (k', v) :: rest, k => if k' = k then some v else alookup rest k

/-- `defaultdict(float)` update `d[k] += h`: add to the existing entry,
or create the entry (appended in insertion order, as Python dicts do). -/
def addQ {α : Type} [DecidableEq α] : List (α × ℚ) → α → ℚ → List (α × ℚ)
  | [], k, h => [(k, h)]
  | (k', v) :: rest, k, h =>
      if k' = k then (k', v + h) :: rest else (k', v) :: addQ rest k h

/-- `defaultdict(list)`-style `d[k].append(x)`. -/
def pushVal {α β : Type} [DecidableEq α] : List (α × List β) → α → β → List (α × List β)
  | [], k, x => [(k, [x])]
  | (k', q) :: rest, k, x =>
      if k' = k then (k', q ++ [x]) :: rest else (k', q) :: pushVal rest k x

/-- Overwrite the value stored at an existing key `d[k] = v`. -/
def setVal {α β : Type} [DecidableEq α] : List (α × β) → α → β → List (α × β)
  | [], k, v => [(k, v)]
  | (k', v') :: rest, k, v =>
      if k' = k then (k', v) :: rest else (k', v') :: setVal rest k v

/-- One row of the `entries` table: `(crew, action, ts)`.  The list order
of an entry store is the insertion (`id`) order. -/
structure Entry where
  crew : String
  action : String
  ts : ℤ
deriving DecidableEq, Repr

/-- The loop state of `calculate_daily_hours`: `open_in` is the
per-crew FIFO deque of yet-unmatched IN timestamps, `totals` is the
per-crew per-day accumulated hours. -/
structure DState (K : Type) where
  open_in : List (String × List ℤ)
  totals : List (String × List (K × ℚ))
deriving DecidableEq

/-- `totals[crew][key] += h` on the nested defaultdicts of
`calculate_daily_hours`. -/
def addCrewHours {K : Type} [DecidableEq K] :
    List (String × List (K × ℚ)) → String → K → ℚ → List (String × List (K × ℚ))
  | [], c, k, h => [(c, addQ [] k h)]
  | (c', m) :: rest, c, k, h =>
      if c' = c then (c', addQ m k h) :: rest
      else (c', m) :: addCrewHours rest c k h

/-- One iteration of the row loop of `calculate_daily_hours`
(App.py lines 75-82): `IN` appends to the crew's deque; `OUT` with a
non-empty deque pops from the left (FIFO) and credits
`(t - t_in)/3600` hours to the bucket of the popped IN timestamp. -/
def dstep {K : Type} [DecidableEq K] (bucket : ℤ → K) (s : DState K) (e : Entry) :
    DState K :=
  if e.action = "IN" then
    { s with open_in := pushVal s.open_in e.crew e.ts }
  else if e.action = "OUT" then
    match (alookup s.open_in e.crew).getD [] with
    | [] => s
    | t_in :: q =>
        { open_in := setVal s.open_in e.crew q
          totals := addCrewHours s.totals e.crew (bucket t_in)
              (((e.ts - t_in : ℤ) : ℚ) / 3600) }
  else s

/-- The full fold of `calculate_daily_hours` over the rows
(which the SQL query returns ordered by `crew, ts`). -/
def calcDailyFold {K : Type} [DecidableEq K] (bucket : ℤ → K) (rows : List Entry) :
    DState K :=
  rows.foldl (dstep bucket) ⟨[], []⟩

/-- `calculate_daily_hours` (App.py lines 68-83): per-crew mapping from
day bucket of the IN instant to accumulated hours. -/
def calculate_daily_hours {K : Type} [DecidableEq K] (bucket : ℤ → K)
    (rows : List Entry) : List (String × List (K × ℚ)) :=
  (calcDailyFold bucket rows).totals

/-- One iteration of the stack loop of `_find_open_in_ts`
(App.py lines 136-140): Python list `append` / `pop` act on the end of
the list. -/
def pyStackStep (st : List ℤ) (row : String × ℤ) : List ℤ :=
  if row.1 = "IN" then st ++ [row.2]
  else if row.1 = "OUT" ∧ st ≠ [] then st.dropLast
  else st

/-- `_find_open_in_ts` (App.py lines 129-141) applied to the crew's
`(action, ts)` rows in `(ts, id)` order: push on IN, pop on OUT when the
stack is non-empty, and return `stack[-1]` (or `None`). -/
def _find_open_in_ts (rows : List (String × ℤ)) : Option ℤ :=
  (rows.foldl pyStackStep []).getLast?

/-- Stack computation exactly as the spec words it: a stack grown at its
head; push the timestamp on IN, pop on OUT when the stack is non-empty;
the result is the top of the stack at the end of the sequence. -/
def specStackStep (st : List ℤ) (row : String × ℤ) : List ℤ :=
  if row.1 = "IN" then row.2 :: st
  else if row.1 = "OUT" ∧ st ≠ [] then st.tail
  else st

/-- The spec-side formulation of `findOpenIn`: top of the stack at the
end of the sequence, or none. -/
def findOpenIn_spec (rows : List (String × ℤ)) : Option ℤ :=
  (rows.foldl specStackStep []).head?

/-- Ordering used by the SQL query `ORDER BY ts ASC, id ASC`: a stable
sort of the crew's entries by timestamp (list order is `id` order). -/
def tsLe (a b : Entry) : Prop := a.ts ≤ b.ts

instance : DecidableRel tsLe := fun a b => inferInstanceAs (Decidable (a.ts ≤ b.ts))

instance : IsTotal Entry tsLe := ⟨fun a b => Int.le_total a.ts b.ts⟩

instance : IsTrans Entry tsLe := ⟨fun _ _ _ h h' => le_trans h h'⟩

/-- The rows of the query in `_find_open_in_ts`:
`SELECT action, ts FROM entries WHERE crew=? ORDER BY ts ASC, id ASC`. -/
def crewRows (store : List Entry) (crew : String) : List (String × ℤ) :=
  (List.insertionSort tsLe (store.filter (fun e => e.crew = crew))).map
    (fun e => (e.action, e.ts))

/-- `_find_open_in_ts(crew)` as called on the store. -/
def find_open_in_store (store : List Entry) (crew : String) : Option ℤ :=
  _find_open_in_ts (crewRows store crew)

/-- The row handed to `log_week_row` for mirroring
(`date_str` is derived from `now` by the external calendar and omitted). -/
structure LogRow where
  crew : String
  action : String
  ts_in : Option ℤ
  ts_out : Option ℤ
  hours : Option ℚ
deriving DecidableEq, Repr

/-- The HTTP response of the `/clock` route. -/
inductive Response where
  | redirect (target : String)
deriving DecidableEq, Repr

/-- `clock_submit` (App.py lines 263-296) as a function of the current
store, the raw form fields and the current instant.  Returns the new
store, the HTTP response and the row mirrored via `log_week_row`
(`none` when the request is rejected before any mutation). -/
def clock_submit (store : List Entry) (crew_raw action_raw : String) (now : ℤ) :
    List Entry × Response × Option LogRow :=
  let crew := pyStrip crew_raw
  let action := pyUpper (pyStrip action_raw)
  if crew = "" ∨ ¬(action = "IN" ∨ action = "OUT") then
    (store, .redirect "clock_page", none)
  else
    let info : Option (ℤ × ℤ × ℚ) :=
      if action = "OUT" then
        match find_open_in_store store crew with
        | some t_in => some (t_in, now, round2 (((now - t_in : ℤ) : ℚ) / 3600))
        | none => none
      else none
    let store' := store ++ [⟨crew, action, now⟩]
    let row : LogRow :=
      if action = "IN" then ⟨crew, action, some now, none, none⟩
      else ⟨crew, action, info.map (fun p => p.1), info.map (fun p => p.2.1),
            info.map (fun p => p.2.2)⟩
    (store', .redirect "clock_page", some row)

/-- One row of the `clock_logs` table of `models.py`: `crew_name`,
`action` (`clock_in` or `clock_out`) and the timestamp. -/
structure Log where
  crew_name : String
  action : String
  ts : ℤ
deriving DecidableEq, Repr

/-- Ordering used by `logs.sort(key=lambda r: r.ts)` in `weekly_buckets`
(a stable sort by timestamp). -/
def logTsLe (a b : Log) : Prop := a.ts ≤ b.ts

instance : DecidableRel logTsLe := fun a b => inferInstanceAs (Decidable (a.ts ≤ b.ts))

instance : IsTotal Log logTsLe := ⟨fun a b => Int.le_total a.ts b.ts⟩

instance : IsTrans Log logTsLe := ⟨fun _ _ _ h h' => le_trans h h'⟩

/-- The `by_person` grouping of `weekly_buckets` (utils.py lines 12-14):
a `defaultdict(list)` filled in row order. -/
def groupByName (rows : List Log) : List (String × List Log) :=
  rows.foldl (fun d r => pushVal d r.crew_name r) []

/-- The inner `while j < len(logs)` scan of `weekly_buckets` (utils.py
lines 27-32): find the first `clock_out` in the remaining logs, returning
it together with the logs after it (`i = j + 1` resumes there). -/
def splitFirstOut : List Log → Option (Log × List Log)
  | [] => none
  | x :: xs => if x.action = "clock_out" then some (x, xs) else splitFirstOut xs

lemma splitFirstOut_length : ∀ {xs : List Log} {o : Log} {post : List Log},
    splitFirstOut xs = some (o, post) → post.length < xs.length := by
  intro xs
  induction xs with
  | nil => intro o post h; simp [splitFirstOut] at h
  | cons x xs ih =>
      intro o post h
      by_cases hx : x.action = "clock_out"
      · simp only [splitFirstOut, hx, if_pos, Option.some.injEq, Prod.mk.injEq] at h
        rw [← h.2]
        simp
      · simp only [splitFirstOut, hx, if_false, reduceIte] at h
        exact Nat.lt_succ_of_lt (ih h)

/-- The outer `while i < len(logs)` loop of `weekly_buckets` (utils.py
lines 20-38) for one person: skip rows that are not `clock_in`; for a
`clock_in`, find the first subsequent `clock_out`; when found, credit
`(end - start)/3600` hours to the ISO-week bucket of the `clock_in`
timestamp and resume after the `clock_out`; when not found, advance by
one. -/
def wbLoop {K : Type} [DecidableEq K] (wk : ℤ → K) :
    List Log → List (K × ℚ) → List (K × ℚ)
  | [], total => total
  | l :: rest, total =>
      if l.action = "clock_in" then
        match h : splitFirstOut rest with
        | some (out, post) =>
            wbLoop wk post (addQ total (wk l.ts) (((out.ts - l.ts : ℤ) : ℚ) / 3600))
        | none => wbLoop wk rest total
      else wbLoop wk rest total
termination_by logs _ => logs.length
decreasing_by
  · exact Nat.lt_succ_of_lt (splitFirstOut_length h)
  · exact Nat.lt_succ_self _
  · exact Nat.lt_succ_self _

@[simp] lemma wbLoop_nil {K : Type} [DecidableEq K] (wk : ℤ → K)
    (total : List (K × ℚ)) : wbLoop wk [] total = total := by
  rw [wbLoop]

lemma wbLoop_cons_found {K : Type} [DecidableEq K] (wk : ℤ → K)
    (l out : Log) (rest post : List Log) (total : List (K × ℚ))
    (hin : l.action = "clock_in") (hsp : splitFirstOut rest = some (out, post)) :
    wbLoop wk (l :: rest) total =
      wbLoop wk post (addQ total (wk l.ts) (((out.ts - l.ts : ℤ) : ℚ) / 3600)) := by
  rw [wbLoop]
  simp only [hin, if_pos, reduceIte]
  split
  · rename_i out' post' h'
    rw [hsp] at h'
    cases h'
    rfl
  · rename_i h'
    rw [hsp] at h'
    cases h'

lemma wbLoop_cons_nofound {K : Type} [DecidableEq K] (wk : ℤ → K)
    (l : Log) (rest : List Log) (total : List (K × ℚ))
    (hin : l.action = "clock_in") (hsp : splitFirstOut rest = none) :
    wbLoop wk (l :: rest) total = wbLoop wk rest total := by
  rw [wbLoop]
  simp only [hin, if_pos, reduceIte]
  split
  · rename_i out' post' h'
    rw [hsp] at h'
    cases h'
  · rfl

lemma wbLoop_cons_notin {K : Type} [DecidableEq K] (wk : ℤ → K)
    (l : Log) (rest : List Log) (total : List (K × ℚ))
    (hin : ¬l.action = "clock_in") :
    wbLoop wk (l :: rest) total = wbLoop wk rest total := by
  rw [wbLoop]
  simp only [hin, if_false, reduceIte]

/-- `weekly_buckets` (utils.py lines 10-40): group rows by person, sort
each person's logs by timestamp, pair each `clock_in` with the first
subsequent `clock_out`, total hours per ISO-week bucket of the
`clock_in`, and round each bucket total to two decimal places. -/
def weekly_buckets {K : Type} [DecidableEq K] (wk : ℤ → K) (rows : List Log) :
    List (String × List (K × ℚ)) :=
  (groupByName rows).map (fun p =>
    (p.1, (wbLoop wk (List.insertionSort logTsLe p.2) []).map
      (fun q => (q.1, round2 q.2))))

example : round2 (1800 / 3600 : ℚ) = 1/2 := by norm_num [round2, roundHalfEven]
example : round2 (3 / 1000 : ℚ) = 0 := by norm_num [round2, roundHalfEven]
example : round2 (6 / 1000 : ℚ) = 1/100 := by norm_num [round2, roundHalfEven]
example : round2 (5 / 1000 : ℚ) = 0 := by norm_num [round2, roundHalfEven]
example : round2 (15 / 1000 : ℚ) = 2/100 := by norm_num [round2, roundHalfEven]

example :
    calculate_daily_hours (fun t => t)
      [⟨"A", "IN", 0⟩, ⟨"A", "IN", 3600⟩, ⟨"A", "OUT", 7200⟩]
      = [("A", [(0, 2)])] := by
  simp +decide only [calculate_daily_hours, calcDailyFold, dstep, pushVal, setVal,
    alookup, addCrewHours, addQ, List.foldl]
  norm_num

example :
    _find_open_in_ts [("IN", 1), ("IN", 2), ("OUT", 3)] = some 1 := by decide

example :
    findOpenIn_spec [("IN", 1), ("IN", 2), ("OUT", 3)] = some 1 := by decide

lemma pyStack_step_reverse (st : List ℤ) (r : String × ℤ) :
    (pyStackStep st r).reverse = specStackStep st.reverse r := by
  unfold pyStackStep specStackStep
  by_cases h1 : r.1 = "IN"
  · simp [h1]
  · by_cases h2 : r.1 = "OUT" ∧ st ≠ []
    · have h2' : r.1 = "OUT" ∧ st.reverse ≠ [] := ⟨h2.1, by simpa using h2.2⟩
      rw [if_neg h1, if_neg h1, if_pos h2, if_pos h2',
        List.tail_reverse_eq_reverse_dropLast]
    · have h2' : ¬(r.1 = "OUT" ∧ st.reverse ≠ []) := by
        simpa using h2
      rw [if_neg h1, if_neg h1, if_neg h2, if_neg h2']

lemma foldl_pyStack_eq_reverse_spec (rows : List (String × ℤ)) :
    ∀ st : List ℤ,
      rows.foldl pyStackStep st = (rows.foldl specStackStep st.reverse).reverse := by
  induction rows with
  | nil => intro st; simp
  | cons r rows ih =>
      intro st
      simp only [List.foldl_cons]
      rw [ih (pyStackStep st r), pyStack_step_reverse]

/-- C2: `_find_open_in_ts` equals the stack computation described by the
spec: push the timestamp on each IN, pop on each OUT when the stack is
non-empty, and return the top of the stack at the end of the sequence (the
most recently pushed unmatched IN), or none when the stack is empty.  Both
sides are pure functions of the row sequence, so the computation is
deterministic and leaves the punch log unmodified. -/
theorem C2_find_open_in_is_spec_stack (rows : List (String × ℤ)) :
    _find_open_in_ts rows = findOpenIn_spec rows := by
  unfold _find_open_in_ts findOpenIn_spec
  rw [foldl_pyStack_eq_reverse_spec rows ([] : List ℤ)]
  simp only [List.reverse_nil]
  generalize rows.foldl specStackStep [] = st
  cases st with
  | nil => simp
  | cons a t => simp [List.reverse_cons, List.getLast?_concat]

/-- C6: a request whose person identifier is empty after trimming, or whose
normalized action is neither IN nor OUT, is rejected before any store
mutation: the store is returned unchanged, nothing is logged downstream,
and the caller synchronously receives the redirect response. -/
theorem C6_invalid_input_rejected (store : List Entry)
    (crew_raw action_raw : String) (now : ℤ)
    (h : pyStrip crew_raw = "" ∨
      ¬(pyUpper (pyStrip action_raw) = "IN" ∨ pyUpper (pyStrip action_raw) = "OUT")) :
    clock_submit store crew_raw action_raw now =
      (store, .redirect "clock_page", none) := by
  unfold clock_submit
  rw [if_pos h]

theorem C6_witness :
    pyStrip " " = "" ∧
    clock_submit [] " " "IN" 0 = ([], .redirect "clock_page", none) :=
  ⟨by decide, C6_invalid_input_rejected [] " " "IN" 0 (Or.inl (by decide))⟩

/-- C3: a valid OUT request evaluates `_find_open_in_ts` over the person's
punch history excluding the punch about to be inserted (the store before
the append); when an open IN exists, the mirrored row carries the triple
`(openIn, instant, round2 ((instant - openIn)/3600))`, rounded at two
decimals with round-half-to-even, the single rounding mode of the model;
and in every case the bare OUT punch is appended to the store. -/
theorem C3_out_pairs_and_appends (store : List Entry)
    (crew_raw action_raw : String) (now : ℤ)
    (hc : pyStrip crew_raw ≠ "")
    (ha : pyUpper (pyStrip action_raw) = "OUT") :
    clock_submit store crew_raw action_raw now =
      (store ++ [⟨pyStrip crew_raw, "OUT", now⟩], .redirect "clock_page",
        some ⟨pyStrip crew_raw, "OUT",
          find_open_in_store store (pyStrip crew_raw),
          (find_open_in_store store (pyStrip crew_raw)).map (fun _ => now),
          (find_open_in_store store (pyStrip crew_raw)).map
            (fun t_in => round2 (((now - t_in : ℤ) : ℚ) / 3600))⟩) := by
  unfold clock_submit
  rw [ha]
  rw [if_neg (by simp [hc])]
  simp only [if_pos rfl, show ("OUT" : String) ≠ "IN" by decide, if_false,
    reduceIte]
  cases h : find_open_in_store store (pyStrip crew_raw) <;> simp [h]

theorem C3_witness :
    pyStrip "A" ≠ "" ∧ pyUpper (pyStrip " out ") = "OUT" ∧
    clock_submit [⟨"A", "IN", 0⟩] "A" " out " 1800 =
      ([⟨"A", "IN", 0⟩, ⟨"A", "OUT", 1800⟩], .redirect "clock_page",
        some ⟨"A", "OUT", some 0, some 1800, some (1/2)⟩) := by
  refine ⟨by decide, by decide, ?_⟩
  rw [C3_out_pairs_and_appends _ _ _ _ (by decide) (by decide)]
  have hfo : find_open_in_store [⟨"A", "IN", 0⟩] (pyStrip "A") = some 0 := by
    decide
  have hs : pyStrip "A" = "A" := by decide
  rw [hfo, hs]
  norm_num [round2, roundHalfEven]

/-- C1, counterexample: for the history `[IN 0, IN 3600, OUT 7200]` of
person `A`, `calculate_daily_hours` pairs the OUT with the FIRST open IN
(FIFO `popleft`), crediting `(7200-0)/3600 = 2` hours to the bucket of
`t1 = 0`; the claimed LIFO pairing `(t2, t3)` would instead put 1 hour in
the bucket of `t2 = 3600`. -/
theorem C1_counterexample :
    calculate_daily_hours (fun t => t)
        [⟨"A", "IN", 0⟩, ⟨"A", "IN", 3600⟩, ⟨"A", "OUT", 7200⟩]
      = [("A", [(0, 2)])] ∧
    calculate_daily_hours (fun t => t)
        [⟨"A", "IN", 0⟩, ⟨"A", "IN", 3600⟩, ⟨"A", "OUT", 7200⟩]
      ≠ [("A", [(3600, 1)])] := by
  constructor
  · simp +decide only [calculate_daily_hours, calcDailyFold, dstep, pushVal,
      setVal, alookup, addCrewHours, addQ, List.foldl]
    norm_num
  · intro h
    simp only [calculate_daily_hours, calcDailyFold, dstep, pushVal, setVal,
      alookup, addCrewHours, addQ, List.foldl] at h
    simp +decide at h

/-- C1, amended: for `[IN t1, IN t2, OUT t3]` (time-ordered) both
aggregators perform exactly one pairing; under the FIFO policy of the
aggregation code the OUT pairs with `(t1, t3)`, leaving `t2` as the
still-open IN of the daily aggregator, so the hours credited are
`(t3 - t1)/3600` attributed to `t1`'s bucket (exact in the daily
aggregator, rounded to two decimals by the weekly one). -/
theorem C1_amended_fifo_pairing {K : Type} [DecidableEq K]
    (bucket wk : ℤ → K) (c : String) (t1 t2 t3 : ℤ)
    (h12 : t1 ≤ t2) (h23 : t2 ≤ t3) :
    calculate_daily_hours bucket [⟨c, "IN", t1⟩, ⟨c, "IN", t2⟩, ⟨c, "OUT", t3⟩]
      = [(c, [(bucket t1, ((t3 - t1 : ℤ) : ℚ) / 3600)])] ∧
    (calcDailyFold bucket
        [⟨c, "IN", t1⟩, ⟨c, "IN", t2⟩, ⟨c, "OUT", t3⟩]).open_in = [(c, [t2])] ∧
    weekly_buckets wk
        [⟨c, "clock_in", t1⟩, ⟨c, "clock_in", t2⟩, ⟨c, "clock_out", t3⟩]
      = [(c, [(wk t1, round2 (((t3 - t1 : ℤ) : ℚ) / 3600))])] := by
  refine ⟨?_, ?_, ?_⟩
  · simp +decide only [calculate_daily_hours, calcDailyFold, dstep, pushVal,
      setVal, alookup, addCrewHours, addQ, List.foldl, reduceIte,
      Option.getD_some, List.singleton_append, List.cons_append, List.nil_append]
  · simp +decide only [calcDailyFold, dstep, pushVal, setVal, alookup,
      addCrewHours, addQ, List.foldl, reduceIte,
      Option.getD_some, List.singleton_append, List.cons_append, List.nil_append]
  · unfold weekly_buckets groupByName
    simp +decide only [List.foldl, pushVal, List.map, reduceIte,
      List.singleton_append, List.cons_append, List.nil_append]
    have hsorted : List.Sorted logTsLe
        [⟨c, "clock_in", t1⟩, ⟨c, "clock_in", t2⟩, ⟨c, "clock_out", t3⟩] := by
      refine List.Pairwise.cons ?_ (List.Pairwise.cons ?_
        (List.pairwise_singleton _ _))
      · intro b hb
        rcases List.mem_cons.mp hb with h | h
        · rw [h]
          exact h12
        · rw [List.mem_singleton.mp h]
          exact le_trans h12 h23
      · intro b hb
        rw [List.mem_singleton.mp hb]
        exact h23
    rw [List.Sorted.insertionSort_eq hsorted]
    rw [wbLoop_cons_found wk ⟨c, "clock_in", t1⟩ ⟨c, "clock_out", t3⟩
      [⟨c, "clock_in", t2⟩, ⟨c, "clock_out", t3⟩] [] [] rfl
      (by simp +decide [splitFirstOut])]
    simp only [wbLoop_nil, addQ, List.map]

theorem C1_amended_witness :
    (0 : ℤ) ≤ 3600 ∧ (3600 : ℤ) ≤ 7200 ∧
    calculate_daily_hours (fun t => t)
        [⟨"A", "IN", 0⟩, ⟨"A", "IN", 3600⟩, ⟨"A", "OUT", 7200⟩]
      = [("A", [(0, 2)])] ∧
    (calcDailyFold (fun t => t)
        [⟨"A", "IN", 0⟩, ⟨"A", "IN", 3600⟩, ⟨"A", "OUT", 7200⟩]).open_in
      = [("A", [3600])] ∧
    weekly_buckets (fun t => t)
        [⟨"A", "clock_in", 0⟩, ⟨"A", "clock_in", 3600⟩, ⟨"A", "clock_out", 7200⟩]
      = [("A", [(0, 2)])] := by
  have h := C1_amended_fifo_pairing (fun t => t) (fun t => t) "A" 0 3600 7200
    (by decide) (by decide)
  refine ⟨by decide, by decide, ?_, ?_, ?_⟩
  · rw [h.1]
    norm_num
  · rw [h.2.1]
  · rw [h.2.2]
    norm_num [round2, roundHalfEven]

/-- C4, counterexample: for `[clock_in 0, clock_out 1]` the weekly
aggregation call site rounds the bucket value to two decimals, yielding
`0` rather than the exact `1/3600` the claim demands at every call
site. -/
theorem C4_counterexample :
    weekly_buckets (fun t => t) [⟨"A", "clock_in", 0⟩, ⟨"A", "clock_out", 1⟩]
      = [("A", [(0, 0)])] ∧
    weekly_buckets (fun t => t) [⟨"A", "clock_in", 0⟩, ⟨"A", "clock_out", 1⟩]
      ≠ [("A", [(0, 1/3600)])] := by
  have h1 : weekly_buckets (fun t => t)
      [⟨"A", "clock_in", 0⟩, ⟨"A", "clock_out", 1⟩] = [("A", [(0, 0)])] := by
    unfold weekly_buckets groupByName
    simp +decide only [List.foldl, pushVal, List.insertionSort,
      List.orderedInsert, logTsLe, List.map, reduceIte]
    rw [wbLoop_cons_found (fun t => t) ⟨"A", "clock_in", 0⟩ ⟨"A", "clock_out", 1⟩
      [⟨"A", "clock_out", 1⟩] [] [] rfl (by simp [splitFirstOut])]
    simp only [wbLoop_nil, addQ, List.map]
    norm_num [round2, roundHalfEven]
  refine ⟨h1, ?_⟩
  rw [h1]
  intro h
  simp only [List.cons.injEq, Prod.mk.injEq] at h
  have := h.1.2.1.2
  norm_num at this

/-- C4, amended: for a person whose entire history is `[IN t1, OUT t2]`
with `t1` before `t2`, the daily aggregator returns exactly
`{bucket(t1) : (t2-t1)/3600}`, and the weekly aggregator returns
`{week(t1) : round2 ((t2-t1)/3600)}` (same value rounded to two
decimals); at both aggregation call sites the bucket key is derived from
the IN instant, not the OUT instant. -/
theorem C4_amended_single_pair {K : Type} [DecidableEq K]
    (bucket wk : ℤ → K) (c : String) (t1 t2 : ℤ) (h : t1 < t2) :
    calculate_daily_hours bucket [⟨c, "IN", t1⟩, ⟨c, "OUT", t2⟩]
      = [(c, [(bucket t1, ((t2 - t1 : ℤ) : ℚ) / 3600)])] ∧
    weekly_buckets wk [⟨c, "clock_in", t1⟩, ⟨c, "clock_out", t2⟩]
      = [(c, [(wk t1, round2 (((t2 - t1 : ℤ) : ℚ) / 3600))])] := by
  constructor
  · simp +decide only [calculate_daily_hours, calcDailyFold, dstep, pushVal,
      setVal, alookup, addCrewHours, addQ, List.foldl, reduceIte,
      Option.getD_some, List.singleton_append, List.cons_append, List.nil_append]
  · unfold weekly_buckets groupByName
    simp +decide only [List.foldl, pushVal, List.map, reduceIte,
      List.singleton_append, List.cons_append, List.nil_append]
    have hsorted : List.Sorted logTsLe
        [⟨c, "clock_in", t1⟩, ⟨c, "clock_out", t2⟩] := by
      refine List.Pairwise.cons ?_ (List.pairwise_singleton _ _)
      intro b hb
      rw [List.mem_singleton.mp hb]
      exact le_of_lt h
    rw [List.Sorted.insertionSort_eq hsorted]
    rw [wbLoop_cons_found wk ⟨c, "clock_in", t1⟩ ⟨c, "clock_out", t2⟩
      [⟨c, "clock_out", t2⟩] [] [] rfl (by simp [splitFirstOut])]
    simp only [wbLoop_nil, addQ, List.map]

theorem C4_amended_witness :
    (0 : ℤ) < 3600 ∧
    calculate_daily_hours (fun t => t) [⟨"A", "IN", 0⟩, ⟨"A", "OUT", 3600⟩]
      = [("A", [(0, 1)])] ∧
    weekly_buckets (fun t => t) [⟨"A", "clock_in", 0⟩, ⟨"A", "clock_out", 3600⟩]
      = [("A", [(0, 1)])] := by
  have h := C4_amended_single_pair (fun t => t) (fun t => t) "A" 0 3600
    (by decide)
  refine ⟨by decide, ?_, ?_⟩
  · rw [h.1]
    norm_num
  · rw [h.2]
    norm_num [round2, roundHalfEven]

lemma alookup_pushVal {α β : Type} [DecidableEq α] :
    ∀ (d : List (α × List β)) (k : α) (x : β) (k' : α),
      alookup (pushVal d k x) k' =
        if k = k' then some ((alookup d k).getD [] ++ [x]) else alookup d k' := by
  intro d
  induction d with
  | nil =>
      intro k x k'
      by_cases h : k = k' <;> simp [pushVal, alookup, h]
  | cons a rest ih =>
      intro k x k'
      obtain ⟨ka, qa⟩ := a
      by_cases h1 : ka = k
      · subst h1
        by_cases h2 : ka = k' <;> simp [pushVal, alookup, h2]
      · by_cases h2 : ka = k'
        · subst h2
          have hkk : ¬k = ka := fun h => h1 h.symm
          simp [pushVal, alookup, h1, hkk]
        · simp [pushVal, alookup, h1, h2, ih]

lemma alookup_setVal {α β : Type} [DecidableEq α] :
    ∀ (d : List (α × β)) (k : α) (v : β) (k' : α),
      alookup (setVal d k v) k' =
        if k = k' then some v else alookup d k' := by
  intro d
  induction d with
  | nil =>
      intro k v k'
      by_cases h : k = k' <;> simp [setVal, alookup, h]
  | cons a rest ih =>
      intro k v k'
      obtain ⟨ka, va⟩ := a
      by_cases h1 : ka = k
      · subst h1
        by_cases h2 : ka = k' <;> simp [setVal, alookup, h2]
      · by_cases h2 : ka = k'
        · subst h2
          have hkk : ¬k = ka := fun h => h1 h.symm
          simp [setVal, alookup, h1, hkk]
        · simp [setVal, alookup, h1, h2, ih]

lemma addQ_nonneg {α : Type} [DecidableEq α] :
    ∀ (d : List (α × ℚ)) (k : α) (h : ℚ),
      (∀ p ∈ d, 0 ≤ p.2) → 0 ≤ h → ∀ p ∈ addQ d k h, 0 ≤ p.2 := by
  intro d
  induction d with
  | nil =>
      intro k h _ hh p hp
      simp only [addQ, List.mem_singleton] at hp
      rw [hp]
      exact hh
  | cons a rest ih =>
      intro k h hd hh p hp
      obtain ⟨ka, va⟩ := a
      by_cases h1 : ka = k
      · simp only [addQ, h1, if_pos, reduceIte, List.mem_cons] at hp
        rcases hp with hp | hp
        · rw [hp]
          exact add_nonneg (hd (ka, va) (by simp)) hh
        · exact hd p (by simp [hp])
      · simp only [addQ, h1, if_false, reduceIte, List.mem_cons] at hp
        rcases hp with hp | hp
        · rw [hp]
          exact hd (ka, va) (by simp)
        · exact ih k h (fun p' hp' => hd p' (by simp [hp'])) hh p hp

lemma addCrewHours_nonneg {K : Type} [DecidableEq K] :
    ∀ (totals : List (String × List (K × ℚ))) (c : String) (k : K) (h : ℚ),
      (∀ p ∈ totals, ∀ q ∈ p.2, 0 ≤ q.2) → 0 ≤ h →
      ∀ p ∈ addCrewHours totals c k h, ∀ q ∈ p.2, 0 ≤ q.2 := by
  intro totals
  induction totals with
  | nil =>
      intro c k h _ hh p hp q hq
      simp only [addCrewHours, List.mem_singleton] at hp
      rw [hp] at hq
      exact addQ_nonneg [] k h (by simp) hh q hq
  | cons a rest ih =>
      intro c k h ht hh p hp q hq
      obtain ⟨ca, ma⟩ := a
      by_cases h1 : ca = c
      · simp only [addCrewHours, h1, if_pos, reduceIte, List.mem_cons] at hp
        rcases hp with hp | hp
        · rw [hp] at hq
          exact addQ_nonneg ma k h (ht (ca, ma) (by simp)) hh q hq
        · exact ht p (by simp [hp]) q hq
      · simp only [addCrewHours, h1, if_false, reduceIte, List.mem_cons] at hp
        rcases hp with hp | hp
        · rw [hp] at hq
          exact ht (ca, ma) (by simp) q hq
        · exact ih c k h (fun p' hp' => ht p' (by simp [hp'])) hh p hp q hq

lemma dstep_out_empty {K : Type} [DecidableEq K] (bucket : ℤ → K)
    (s : DState K) (e : Entry)
    (hIN : ¬e.action = "IN") (hOUT : e.action = "OUT")
    (h : (alookup s.open_in e.crew).getD [] = []) : dstep bucket s e = s := by
  unfold dstep
  rw [if_neg hIN, if_pos hOUT, h]

/-- The ordering guarantee of `ORDER BY crew, ts`: any two rows of the
same crew appear in non-decreasing timestamp order. -/
def crewTs (a b : Entry) : Prop := a.crew = b.crew → a.ts ≤ b.ts

lemma calcDaily_fold_nonneg {K : Type} [DecidableEq K] (bucket : ℤ → K) :
    ∀ (rows : List Entry) (s : DState K),
      rows.Pairwise crewTs →
      (∀ c q, alookup s.open_in c = some q →
        ∀ t ∈ q, ∀ e ∈ rows, e.crew = c → t ≤ e.ts) →
      (∀ p ∈ s.totals, ∀ q ∈ p.2, 0 ≤ q.2) →
      ∀ p ∈ (rows.foldl (dstep bucket) s).totals, ∀ q ∈ p.2, 0 ≤ q.2 := by
  intro rows
  induction rows with
  | nil =>
      intro s _ _ ht
      simpa using ht
  | cons e rest ih =>
      intro s hpw hq ht
      obtain ⟨hhead, htail⟩ := List.pairwise_cons.mp hpw
      simp only [List.foldl_cons]
      by_cases hIN : e.action = "IN"
      · have hstep : dstep bucket s e =
            { s with open_in := pushVal s.open_in e.crew e.ts } := by
          unfold dstep
          rw [if_pos hIN]
        rw [hstep]
        refine ih _ htail ?_ ht
        intro c q hlk t htq e' he' hc'
        rw [alookup_pushVal] at hlk
        by_cases hck : e.crew = c
        · rw [if_pos hck] at hlk
          cases hlk
          rcases List.mem_append.mp htq with htq | htq
          · cases halk : alookup s.open_in e.crew with
            | none =>
                rw [halk] at htq
                simp at htq
            | some q0 =>
                rw [halk] at htq
                simp only [Option.getD_some] at htq
                rw [← hck] at hc'
                exact hq e.crew q0 halk t htq e' (by simp [he']) hc'
          · rw [List.mem_singleton.mp htq]
            exact hhead e' he' (hck.trans hc'.symm)
        · rw [if_neg hck] at hlk
          exact hq c q hlk t htq e' (by simp [he']) hc'
      · by_cases hOUT : e.action = "OUT"
        · cases hq0 : (alookup s.open_in e.crew).getD [] with
          | nil =>
              have hstep : dstep bucket s e = s := by
                unfold dstep
                rw [if_neg hIN, if_pos hOUT, hq0]
              rw [hstep]
              refine ih _ htail ?_ ht
              intro c q hlk t htq e' he' hc'
              exact hq c q hlk t htq e' (by simp [he']) hc'
          | cons t_in q0 =>
              have halk : alookup s.open_in e.crew = some (t_in :: q0) := by
                cases h' : alookup s.open_in e.crew with
                | none =>
                    rw [h'] at hq0
                    simp at hq0
                | some l =>
                    rw [h'] at hq0
                    simp only [Option.getD_some] at hq0
                    rw [hq0]
              have hstep : dstep bucket s e =
                  { open_in := setVal s.open_in e.crew q0
                    totals := addCrewHours s.totals e.crew (bucket t_in)
                        (((e.ts - t_in : ℤ) : ℚ) / 3600) } := by
                unfold dstep
                rw [if_neg hIN, if_pos hOUT, hq0]
              have hdur : (0 : ℚ) ≤ ((e.ts - t_in : ℤ) : ℚ) / 3600 := by
                apply div_nonneg _ (by norm_num)
                have hle : t_in ≤ e.ts :=
                  hq e.crew (t_in :: q0) halk t_in (by simp) e (by simp) rfl
                exact_mod_cast sub_nonneg.mpr hle
              rw [hstep]
              refine ih _ htail ?_
                (addCrewHours_nonneg s.totals e.crew (bucket t_in) _ ht hdur)
              intro c q hlk t htq e' he' hc'
              rw [alookup_setVal] at hlk
              by_cases hck : e.crew = c
              · rw [if_pos hck] at hlk
                cases hlk
                exact hq e.crew (t_in :: q0) halk t (by simp [htq]) e'
                  (by simp [he']) (by rw [hck]; exact hc')
              · rw [if_neg hck] at hlk
                exact hq c q hlk t htq e' (by simp [he']) hc'
        · have hstep : dstep bucket s e = s := by
            unfold dstep
            rw [if_neg hIN, if_neg hOUT]
          rw [hstep]
          refine ih _ htail ?_ ht
          intro c q hlk t htq e' he' hc'
          exact hq c q hlk t htq e' (by simp [he']) hc'

lemma splitFirstOut_mem : ∀ {xs : List Log} {o : Log} {post : List Log},
    splitFirstOut xs = some (o, post) → o ∈ xs := by
  intro xs
  induction xs with
  | nil => intro o post h; simp [splitFirstOut] at h
  | cons x xs ih =>
      intro o post h
      by_cases hx : x.action = "clock_out"
      · simp only [splitFirstOut, hx, if_pos, Option.some.injEq,
          Prod.mk.injEq, reduceIte] at h
        simp [← h.1]
      · simp only [splitFirstOut, hx, if_false, reduceIte] at h
        exact List.mem_cons_of_mem x (ih h)

lemma splitFirstOut_sublist : ∀ {xs : List Log} {o : Log} {post : List Log},
    splitFirstOut xs = some (o, post) → post.Sublist xs := by
  intro xs
  induction xs with
  | nil => intro o post h; simp [splitFirstOut] at h
  | cons x xs ih =>
      intro o post h
      by_cases hx : x.action = "clock_out"
      · simp only [splitFirstOut, hx, if_pos, Option.some.injEq,
          Prod.mk.injEq, reduceIte] at h
        rw [← h.2]
        exact (List.Sublist.refl xs).cons x
      · simp only [splitFirstOut, hx, if_false, reduceIte] at h
        exact (ih h).cons x

lemma wbLoop_nonneg {K : Type} [DecidableEq K] (wk : ℤ → K) :
    ∀ (n : ℕ) (logs : List Log) (total : List (K × ℚ)),
      logs.length ≤ n → logs.Pairwise logTsLe →
      (∀ p ∈ total, 0 ≤ p.2) → ∀ p ∈ wbLoop wk logs total, 0 ≤ p.2 := by
  intro n
  induction n with
  | zero =>
      intro logs total hl _ ht
      rw [List.length_eq_zero.mp (Nat.le_zero.mp hl)]
      simpa using ht
  | succ m ih =>
      intro logs total hl hpw ht
      cases logs with
      | nil => simpa using ht
      | cons l rest =>
          obtain ⟨hhead, htail⟩ := List.pairwise_cons.mp hpw
          have hrl : rest.length ≤ m := by
            simp only [List.length_cons] at hl
            omega
          by_cases hin : l.action = "clock_in"
          · cases hsp : splitFirstOut rest with
            | none =>
                rw [wbLoop_cons_nofound _ _ _ _ hin hsp]
                exact ih rest total hrl htail ht
            | some op =>
                obtain ⟨out, post⟩ := op
                rw [wbLoop_cons_found wk l out rest post total hin hsp]
                have hpl : post.length ≤ m :=
                  le_trans (le_of_lt (splitFirstOut_length hsp)) hrl
                have hdur : (0 : ℚ) ≤ ((out.ts - l.ts : ℤ) : ℚ) / 3600 := by
                  apply div_nonneg _ (by norm_num)
                  have hle : l.ts ≤ out.ts := hhead out (splitFirstOut_mem hsp)
                  exact_mod_cast sub_nonneg.mpr hle
                exact ih post _ hpl (htail.sublist (splitFirstOut_sublist hsp))
                  (addQ_nonneg total _ _ ht hdur)
          · rw [wbLoop_cons_notin _ _ _ _ hin]
            exact ih rest total hrl htail ht

lemma round2_nonneg {q : ℚ} (h : 0 ≤ q) : 0 ≤ round2 q := by
  unfold round2 roundHalfEven
  have hf : (0 : ℤ) ≤ ⌊q * 100⌋ := Int.floor_nonneg.mpr (by positivity)
  apply div_nonneg _ (by norm_num)
  split_ifs
  · exact_mod_cast hf
  · push_cast
    exact add_nonneg (by exact_mod_cast hf) zero_le_one
  · exact_mod_cast hf
  · push_cast
    exact add_nonneg (by exact_mod_cast hf) zero_le_one

lemma weekly_buckets_nonneg {K : Type} [DecidableEq K] (wk : ℤ → K)
    (rows : List Log) :
    ∀ p ∈ weekly_buckets wk rows, ∀ q ∈ p.2, 0 ≤ q.2 := by
  intro p hp q hq
  unfold weekly_buckets at hp
  rw [List.mem_map] at hp
  obtain ⟨⟨name, logs⟩, _, rfl⟩ := hp
  simp only at hq
  rw [List.mem_map] at hq
  obtain ⟨q0, hq0, rfl⟩ := hq
  have hsorted : (List.insertionSort logTsLe logs).Pairwise logTsLe :=
    List.sorted_insertionSort logTsLe logs
  exact round2_nonneg (wbLoop_nonneg wk (List.insertionSort logTsLe logs).length
    (List.insertionSort logTsLe logs) [] le_rfl hsorted (by simp) q0 hq0)

/-- C5: an OUT with no open IN for its person is dropped: it leaves the
aggregation state unchanged and raises no error; a person whose whole
history is `[OUT t]` gets an empty result from both aggregators (absent
from the daily result, mapped to the empty bucket map by the weekly one);
and every hours total either aggregator produces is non-negative (for the
daily aggregator, under the `ORDER BY crew, ts` ordering of its input
rows). -/
theorem C5_unmatched_out_dropped :
    (∀ (K : Type) [DecidableEq K], ∀ (bucket : ℤ → K) (s : DState K)
        (c : String) (t : ℤ),
      (alookup s.open_in c).getD [] = [] →
      dstep bucket s ⟨c, "OUT", t⟩ = s) ∧
    (∀ (K : Type) [DecidableEq K], ∀ (bucket : ℤ → K) (c : String) (t : ℤ),
      calculate_daily_hours bucket [⟨c, "OUT", t⟩] = []) ∧
    (∀ (K : Type) [DecidableEq K], ∀ (wk : ℤ → K) (c : String) (t : ℤ),
      weekly_buckets wk [⟨c, "clock_out", t⟩] = [(c, [])]) ∧
    (∀ (K : Type) [DecidableEq K], ∀ (bucket : ℤ → K) (rows : List Entry),
      rows.Pairwise crewTs →
      ∀ p ∈ calculate_daily_hours bucket rows, ∀ q ∈ p.2, 0 ≤ q.2) ∧
    (∀ (K : Type) [DecidableEq K], ∀ (wk : ℤ → K) (rows : List Log),
      ∀ p ∈ weekly_buckets wk rows, ∀ q ∈ p.2, 0 ≤ q.2) := by
  refine ⟨?_, ?_, ?_, ?_, ?_⟩
  · intro K _ bucket s c t h
    exact dstep_out_empty bucket s ⟨c, "OUT", t⟩
      (show ¬("OUT" : String) = "IN" by decide) rfl h
  · intro K _ bucket c t
    unfold calculate_daily_hours calcDailyFold
    simp only [List.foldl_cons, List.foldl_nil]
    rw [dstep_out_empty bucket ⟨[], []⟩ ⟨c, "OUT", t⟩
      (show ¬("OUT" : String) = "IN" by decide) rfl (by simp [alookup])]
  · intro K _ wk c t
    unfold weekly_buckets groupByName
    simp only [List.foldl_cons, List.foldl_nil, pushVal, List.map,
      List.insertionSort, List.orderedInsert]
    rw [wbLoop_cons_notin wk ⟨c, "clock_out", t⟩ [] []
      (show ¬("clock_out" : String) = "clock_in" by decide)]
    simp
  · intro K _ bucket rows hpw
    exact calcDaily_fold_nonneg bucket rows ⟨[], []⟩ hpw
      (by intro c q hlk; simp [alookup] at hlk) (by simp)
  · intro K _ wk rows
    exact weekly_buckets_nonneg wk rows

theorem C5_witness :
    (alookup (([] : List (String × List ℤ))) "A").getD [] = [] ∧
    dstep (fun t => t) (⟨[], []⟩ : DState ℤ) ⟨"A", "OUT", 5⟩ = ⟨[], []⟩ ∧
    calculate_daily_hours (fun t => t) [⟨"A", "OUT", 5⟩] = [] ∧
    weekly_buckets (fun t => t) [⟨"A", "clock_out", 5⟩] = [("A", [])] ∧
    (∀ p ∈ calculate_daily_hours (fun t => t)
        [⟨"A", "IN", 0⟩, ⟨"A", "OUT", 3600⟩], ∀ q ∈ p.2, 0 ≤ q.2) ∧
    (∀ p ∈ weekly_buckets (fun t => t)
        [⟨"A", "clock_in", 0⟩, ⟨"A", "clock_out", 3600⟩], ∀ q ∈ p.2, 0 ≤ q.2) := by
  have hpw : List.Pairwise crewTs [⟨"A", "IN", 0⟩, ⟨"A", "OUT", 3600⟩] := by
    refine List.Pairwise.cons ?_ (List.pairwise_singleton _ _)
    intro b hb
    rw [List.mem_singleton.mp hb]
    intro _
    decide
  refine ⟨by simp [alookup], ?_, ?_, ?_, ?_, ?_⟩
  · exact C5_unmatched_out_dropped.1 ℤ (fun t => t) ⟨[], []⟩ "A" 5
      (by simp [alookup])
  · exact C5_unmatched_out_dropped.2.1 ℤ (fun t => t) "A" 5
  · exact C5_unmatched_out_dropped.2.2.1 ℤ (fun t => t) "A" 5
  · exact C5_unmatched_out_dropped.2.2.2.1 ℤ (fun t => t) _ hpw
  · exact C5_unmatched_out_dropped.2.2.2.2 ℤ (fun t => t) _

lemma splitFirstOut_append (pre : List Log) (out : Log) (post : List Log)
    (hpre : ∀ x ∈ pre, x.action ≠ "clock_out")
    (hout : out.action = "clock_out") :
    splitFirstOut (pre ++ out :: post) = some (out, post) := by
  induction pre with
  | nil => simp [splitFirstOut, hout]
  | cons x xs ih =>
      have hx : x.action ≠ "clock_out" := hpre x (by simp)
      simp only [List.cons_append, splitFirstOut, hx, if_false, reduceIte]
      exact ih (fun y hy => hpre y (by simp [hy]))

/-- C10: in the weekly aggregation scan, once a `clock_in` is paired with
the first subsequent `clock_out`, scanning resumes right after that
`clock_out`; the `clock_in` rows lying strictly between the two are
skipped entirely — the loop result is the single pairing's contribution
followed by the scan of the logs after the `clock_out`, independent of
the skipped rows, so they are never paired, never surface as an open IN,
and contribute zero hours to every bucket. -/
theorem C10_inner_scan_skips_intermediate_ins {K : Type} [DecidableEq K]
    (wk : ℤ → K) (cin out : Log) (pre pre' post : List Log)
    (total : List (K × ℚ))
    (hin : cin.action = "clock_in")
    (hout : out.action = "clock_out")
    (hpre : ∀ x ∈ pre, x.action ≠ "clock_out")
    (hpre' : ∀ x ∈ pre', x.action ≠ "clock_out") :
    wbLoop wk (cin :: (pre ++ out :: post)) total =
      wbLoop wk post
        (addQ total (wk cin.ts) (((out.ts - cin.ts : ℤ) : ℚ) / 3600)) ∧
    wbLoop wk (cin :: (pre ++ out :: post)) total =
      wbLoop wk (cin :: (pre' ++ out :: post)) total := by
  have h1 := wbLoop_cons_found wk cin out (pre ++ out :: post) post total hin
    (splitFirstOut_append pre out post hpre hout)
  have h2 := wbLoop_cons_found wk cin out (pre' ++ out :: post) post total hin
    (splitFirstOut_append pre' out post hpre' hout)
  exact ⟨h1, h1.trans h2.symm⟩

theorem C10_witness :
    wbLoop (fun t => t)
        [⟨"A", "clock_in", 0⟩, ⟨"A", "clock_in", 10⟩, ⟨"A", "clock_out", 20⟩]
        [] =
      wbLoop (fun t => t) []
        (addQ [] 0 (((20 - 0 : ℤ) : ℚ) / 3600)) ∧
    wbLoop (fun t => t)
        [⟨"A", "clock_in", 0⟩, ⟨"A", "clock_in", 10⟩, ⟨"A", "clock_out", 20⟩]
        [] =
      wbLoop (fun t => t) [⟨"A", "clock_in", 0⟩, ⟨"A", "clock_out", 20⟩] [] := by
  have h := C10_inner_scan_skips_intermediate_ins (fun t => t)
    ⟨"A", "clock_in", 0⟩ ⟨"A", "clock_out", 20⟩
    [⟨"A", "clock_in", 10⟩] [] [] [] rfl rfl
    (by intro x hx; rw [List.mem_singleton.mp hx]; decide)
    (by intro x hx; simp at hx)
  exact ⟨h.1, h.2⟩

/-- A spreadsheet cell: `get_all_values` returns strings; the rebuild
writes strings and numbers (`round(hrs, 2)`). -/
inductive Cell where
  | str (s : String)
  | num (q : ℚ)
deriving DecidableEq, Repr

/-- Value of an ASCII digit character. -/
def digitVal (c : Char) : ℕ := c.toNat - 48

/-- Value of a digit string, most significant first. -/
def digitsToNat (cs : List Char) : ℕ := cs.foldl (fun a c => a * 10 + digitVal c) 0

/-- Split a character list at the first dot, if any. -/
def splitDot : List Char → List Char × Option (List Char)
  | [] => ([], none)
  | c :: cs =>
      if c = '.' then ([], some cs)
      else
        let r := splitDot cs
        (c :: r.1, r.2)

/-- Python `float(s)` on the plain decimal forms the application writes
(optional sign, digits, optional fractional part); other inputs fail,
matching the `except`-skip of malformed rows. -/
def parseFloat (s : String) : Option ℚ :=
  match s.data with
  | [] => none
  | c :: r =>
      if c = '-' then (parseUnsigned r).map (fun q => -q)
      else if c = '+' then parseUnsigned r
      else parseUnsigned (c :: r)
where
  parseUnsigned (cs : List Char) : Option ℚ :=
    match splitDot cs with
    | (w, none) =>
        if w ≠ [] ∧ w.all Char.isDigit then some ((digitsToNat w : ℚ)) else none
    | (w, some f) =>
        if (w ≠ [] ∨ f ≠ []) ∧ w.all Char.isDigit ∧ f.all Char.isDigit then
          some ((digitsToNat w : ℚ) + (digitsToNat f : ℚ) / (10 : ℚ) ^ f.length)
        else none

@[simp] lemma digitVal_zero : digitVal '0' = 0 := by decide

@[simp] lemma digitVal_one : digitVal '1' = 1 := by decide

@[simp] lemma digitVal_two : digitVal '2' = 2 := by decide

@[simp] lemma digitVal_three : digitVal '3' = 3 := by decide

@[simp] lemma digitVal_four : digitVal '4' = 4 := by decide

@[simp] lemma digitVal_five : digitVal '5' = 5 := by decide

@[simp] lemma digitVal_six : digitVal '6' = 6 := by decide

@[simp] lemma digitVal_seven : digitVal '7' = 7 := by decide

@[simp] lemma digitVal_eight : digitVal '8' = 8 := by decide

@[simp] lemma digitVal_nine : digitVal '9' = 9 := by decide

/-- The header-to-column map `idx = {name: i for i, name in
enumerate(header)}` (later duplicates overwrite, as in a Python dict). -/
def idxMap (header : List String) : List (String × ℕ) :=
  header.enum.foldl (fun d p => setVal d p.2 p.1) []

/-- `idx.get(name, dflt)`. -/
def idxGet (d : List (String × ℕ)) (name : String) (dflt : ℕ) : ℕ :=
  (alookup d name).getD dflt

/-- The per-row body of the totals loop of `update_weekly_totals_for_week`
(App.py lines 219-229): read the action cell, keep only OUT rows, read
the crew and hours cells, skip blank or unparseable hours; any
out-of-range index or parse failure is swallowed by the row-level
`except` and skips the row. -/
def rowContrib (d : List (String × ℕ)) (row : List String) :
    Option (String × ℚ) :=
  match alookup d "action" with
  | none => none
  | some ia =>
    match row.get? ia with
    | none => none
    | some a =>
      if pyUpper (pyStrip a) = "OUT" then
        match alookup d "crew" with
        | none => none
        | some ic =>
          match row.get? ic with
          | none => none
          | some c =>
            match alookup d "hours" with
            | none => none
            | some ihour =>
              match row.get? ihour with
              | none => none
              | some hstr =>
                if pyStrip hstr = "" then none
                else
                  match parseFloat (pyStrip hstr) with
                  | none => none
                  | some q => some (pyStrip c, q)
      else none

/-- The `totals = defaultdict(float)` accumulation over the week's data
rows. -/
def weekTotalsFold (d : List (String × ℕ)) (dataRows : List (List String)) :
    List (String × ℚ) :=
  dataRows.foldl (fun t row =>
    match rowContrib d row with
    | some p => addQ t p.1 p.2
    | none => t) []

/-- `sorted(totals.items(), key=lambda x: x[0].lower())`: compare the
lowercased names by code points. -/
def caseInsLe (a b : String × ℚ) : Prop :=
  strLeB (pyLower a.1).data (pyLower b.1).data = true

instance : DecidableRel caseInsLe :=
  fun a b => inferInstanceAs (Decidable (_ = true))

lemma strLeB_total : ∀ as bs : List Char,
    strLeB as bs = true ∨ strLeB bs as = true := by
  intro as
  induction as with
  | nil => intro bs; left; rfl
  | cons a as ih =>
      intro bs
      cases bs with
      | nil => right; rfl
      | cons b bs =>
          by_cases h1 : a < b
          · left; simp [strLeB, h1]
          · by_cases h2 : b < a
            · right; simp [strLeB, h2]
            · rcases ih bs with h | h
              · left; simp [strLeB, h1, h2, h]
              · right; simp [strLeB, h1, h2, h]

lemma strLeB_trans : ∀ as bs cs : List Char,
    strLeB as bs = true → strLeB bs cs = true → strLeB as cs = true := by
  intro as
  induction as with
  | nil => intro bs cs _ _; rfl
  | cons a as ih =>
      intro bs cs h1 h2
      cases bs with
      | nil => simp [strLeB] at h1
      | cons b bs =>
          cases cs with
          | nil => simp [strLeB] at h2
          | cons c cs =>
              by_cases hab : a < b
              · by_cases hbc : b < c
                · simp [strLeB, lt_trans hab hbc]
                · by_cases hcb : c < b
                  · simp [strLeB, hbc, hcb] at h2
                  · have hbc' : b = c := le_antisymm (not_lt.mp hcb) (not_lt.mp hbc)
                    rw [← hbc']
                    simp [strLeB, hab]
              · by_cases hba : b < a
                · simp [strLeB, hab, hba] at h1
                · have hab' : a = b := le_antisymm (not_lt.mp hba) (not_lt.mp hab)
                  subst hab'
                  simp only [strLeB, lt_irrefl, if_false, reduceIte] at h1
                  by_cases hac : a < c
                  · simp [strLeB, hac]
                  · by_cases hca : c < a
                    · simp [strLeB, hac, hca] at h2
                    · simp only [strLeB, hac, hca, lt_irrefl, if_false,
                        reduceIte] at h2 ⊢
                      exact ih bs cs h1 h2

instance : IsTotal (String × ℚ) caseInsLe := ⟨fun a b => strLeB_total _ _⟩

instance : IsTrans (String × ℚ) caseInsLe :=
  ⟨fun _ _ _ h h' => strLeB_trans _ _ _ h h'⟩

/-- Header row of a `Totals` worksheet. -/
def totalsHeader : List String := ["crew", "total_hours", "updated_at"]

/-- `update_weekly_totals_for_week` (App.py lines 195-242), as a function
of the week sheet's `get_all_values()` result and the `now` string: the
rows published to the totals worksheet (after `clear`), or `none` when
the rebuild fails because required columns are missing. -/
def update_weekly_totals_for_week (values : List (List String))
    (now_str : String) : Option (List (List Cell)) :=
  if values.length < 2 then
    some [totalsHeader.map Cell.str]
  else
    match values with
    | [] => none
    | header :: dataRows =>
        let d := idxMap header
        if (alookup d "crew").isSome ∧ (alookup d "action").isSome ∧
            (alookup d "hours").isSome then
          let totals := weekTotalsFold d dataRows
          let ordered := List.insertionSort caseInsLe totals
          let rows := (totalsHeader.map Cell.str) ::
            ordered.map (fun p =>
              [Cell.str p.1, Cell.num (round2 p.2), Cell.str now_str])
          some (if rows.length > 1 then
            rows ++ [[Cell.str "__WEEK_TOTAL__",
              Cell.num (round2 (totals.map Prod.snd).sum), Cell.str now_str]]
          else rows)
        else none

/-- Header row of the `All Weeks Summary` worksheet. -/
def allWeeksHeader : List String :=
  ["week_title", "crew", "total_hours", "updated_at"]

/-- One iteration of the row-preservation loop of
`update_all_weeks_summary` (App.py lines 178-186): rows shorter than 2
cells are skipped, rows of the rebuilt week are dropped, other rows are
re-emitted through the header-index permutation; an out-of-range index
raises (outer `none`). -/
def rowKeep (d : List (String × ℕ)) (wt : String) (row : List String) :
    Option (Option (List Cell)) :=
  if row.length < 2 then some none
  else if row.headD "" = wt then some none
  else
    match row.get? (idxGet d "week_title" 0) with
    | none => none
    | some c0 =>
      match row.get? (idxGet d "crew" 1) with
      | none => none
      | some c1 =>
        match row.get? (idxGet d "total_hours" 2) with
        | none => none
        | some c2 =>
          match row.get? (idxGet d "updated_at" 3) with
          | none => none
          | some c3 =>
            some (some [Cell.str c0, Cell.str c1, Cell.str c2, Cell.str c3])

/-- The whole preservation loop, in row order. -/
def keepRows (d : List (String × ℕ)) (wt : String) :
    List (List String) → Option (List (List Cell))
  | [] => some []
  | row :: rest =>
      match rowKeep d wt row with
      | none => none
      | some k =>
        match keepRows d wt rest with
        | none => none
        | some ks =>
          match k with
          | some r => some (r :: ks)
          | none => some ks

/-- `update_all_weeks_summary` (App.py lines 171-193) as a function of the
summary sheet's current `get_all_values()`, the rebuilt week title, the
ordered per-person totals and the `updated_at` string: the rows written
back after `clear`, or `none` when a malformed preserved row raises. -/
def update_all_weeks_summary (values : List (List String)) (week_title : String)
    (ordered_totals : List (String × ℚ)) (updated_at : String) :
    Option (List (List Cell)) :=
  let newRows : List (List Cell) :=
    ordered_totals.map (fun p =>
      [Cell.str week_title, Cell.str p.1, Cell.num (round2 p.2),
        Cell.str updated_at]) ++
    (if ordered_totals ≠ [] then
      [[Cell.str week_title, Cell.str "__WEEK_TOTAL__",
        Cell.num (round2 (ordered_totals.map Prod.snd).sum),
        Cell.str updated_at]]
     else [])
  match values with
  | [] => some ((allWeeksHeader.map Cell.str) :: newRows)
  | header :: dataRows =>
      if dataRows.length = 0 then some ((allWeeksHeader.map Cell.str) :: newRows)
      else
        match keepRows (idxMap header) week_title dataRows with
        | none => none
        | some kept => some ((allWeeksHeader.map Cell.str) :: (kept ++ newRows))

example : parseFloat "0.003" = some (3/1000) := by
  simp +decide only [parseFloat, parseFloat.parseUnsigned, splitDot, digitsToNat,
    List.foldl, digitVal_zero, digitVal_three, reduceIte]
  norm_num

example : parseFloat "12.5" = some (25/2) := by
  simp +decide only [parseFloat, parseFloat.parseUnsigned, splitDot, digitsToNat,
    List.foldl, digitVal_one, digitVal_two, digitVal_five, reduceIte]
  norm_num

example : parseFloat "-3" = some (-3) := by
  simp +decide only [parseFloat, parseFloat.parseUnsigned, splitDot, digitsToNat,
    List.foldl, digitVal_three, reduceIte]

example : parseFloat "a1" = none := by
  simp +decide only [parseFloat, parseFloat.parseUnsigned, splitDot, digitsToNat,
    List.foldl, reduceIte]

example : parseFloat "1.2.3" = none := by
  simp +decide only [parseFloat, parseFloat.parseUnsigned, splitDot, digitsToNat,
    List.foldl, reduceIte]

example : idxMap totalsHeader =
    [("crew", 0), ("total_hours", 1), ("updated_at", 2)] := by decide

lemma alookup_addQ {α : Type} [DecidableEq α] :
    ∀ (d : List (α × ℚ)) (k : α) (h : ℚ) (k' : α),
      alookup (addQ d k h) k' =
        if k = k' then some ((alookup d k).getD 0 + h) else alookup d k' := by
  intro d
  induction d with
  | nil =>
      intro k h k'
      by_cases hk : k = k' <;> simp [addQ, alookup, hk]
  | cons a rest ih =>
      intro k h k'
      obtain ⟨ka, va⟩ := a
      by_cases h1 : ka = k
      · subst h1
        by_cases h2 : ka = k' <;> simp [addQ, alookup, h2]
      · by_cases h2 : ka = k'
        · subst h2
          have hkk : ¬k = ka := fun hh => h1 hh.symm
          simp [addQ, alookup, h1, hkk]
        · simp [addQ, alookup, h1, h2, ih]

/-- Read a `defaultdict(float)` (missing keys read as `0.0`). -/
def lookupQ {α : Type} [DecidableEq α] (d : List (α × ℚ)) (k : α) : ℚ :=
  (alookup d k).getD 0

lemma lookupQ_addQ {α : Type} [DecidableEq α] (d : List (α × ℚ)) (k : α)
    (h : ℚ) (k' : α) :
    lookupQ (addQ d k h) k' =
      if k = k' then lookupQ d k' + h else lookupQ d k' := by
  unfold lookupQ
  rw [alookup_addQ]
  by_cases hk : k = k' <;> simp [hk]

lemma lookupQ_foldl {α : Type} [DecidableEq α] :
    ∀ (ps : List (α × ℚ)) (acc : List (α × ℚ)) (c : α),
      lookupQ (ps.foldl (fun t p => addQ t p.1 p.2) acc) c =
        lookupQ acc c +
          ((ps.filter (fun p => decide (p.1 = c))).map Prod.snd).sum := by
  intro ps
  induction ps with
  | nil => intro acc c; simp
  | cons p ps ih =>
      intro acc c
      simp only [List.foldl_cons]
      rw [ih, lookupQ_addQ]
      by_cases hp : p.1 = c
      · simp only [List.filter_cons, hp, decide_True, List.map_cons,
          List.sum_cons, if_pos, reduceIte]
        ring
      · simp [List.filter_cons, hp]

lemma alookup_eq_none_iff {α β : Type} [DecidableEq α] :
    ∀ (d : List (α × β)) (k : α), alookup d k = none ↔ k ∉ d.map Prod.fst := by
  intro d
  induction d with
  | nil => intro k; simp [alookup]
  | cons a rest ih =>
      intro k
      obtain ⟨ka, va⟩ := a
      by_cases h : ka = k
      · subst h
        simp [alookup]
      · have h' : ¬k = ka := fun hh => h hh.symm
        simp [alookup, h, h', ih]

lemma addQ_fst {α : Type} [DecidableEq α] :
    ∀ (d : List (α × ℚ)) (k : α) (h : ℚ),
      (addQ d k h).map Prod.fst =
        if alookup d k = none then d.map Prod.fst ++ [k] else d.map Prod.fst := by
  intro d
  induction d with
  | nil => intro k h; simp [addQ, alookup]
  | cons a rest ih =>
      intro k h
      obtain ⟨ka, va⟩ := a
      by_cases h1 : ka = k
      · subst h1
        simp [addQ, alookup]
      · simp only [addQ, h1, if_false, reduceIte, List.map_cons, alookup]
        rw [ih]
        by_cases h2 : alookup rest k = none <;> simp [h2]

lemma nodup_fst_addQ {α : Type} [DecidableEq α] (d : List (α × ℚ)) (k : α)
    (h : ℚ) (hnd : (d.map Prod.fst).Nodup) :
    ((addQ d k h).map Prod.fst).Nodup := by
  rw [addQ_fst]
  split
  · rename_i hnone
    simp only [List.nodup_append, List.nodup_singleton, true_and]
    refine ⟨hnd, ?_⟩
    intro x hx hx'
    rw [List.mem_singleton.mp hx'] at hx
    exact (alookup_eq_none_iff d k).mp hnone hx
  · exact hnd

lemma nodup_fst_foldl_addQ {α : Type} [DecidableEq α] :
    ∀ (ps : List (α × ℚ)) (acc : List (α × ℚ)),
      (acc.map Prod.fst).Nodup →
      ((ps.foldl (fun t p => addQ t p.1 p.2) acc).map Prod.fst).Nodup := by
  intro ps
  induction ps with
  | nil => intro acc h; simpa using h
  | cons p ps ih =>
      intro acc h
      simp only [List.foldl_cons]
      exact ih _ (nodup_fst_addQ acc p.1 p.2 h)

lemma alookup_of_mem_nodup {α β : Type} [DecidableEq α] :
    ∀ (d : List (α × β)), (d.map Prod.fst).Nodup →
      ∀ c v, (c, v) ∈ d → alookup d c = some v := by
  intro d
  induction d with
  | nil => intro _ c v h; simp at h
  | cons a rest ih =>
      intro hnd c v hmem
      obtain ⟨ka, va⟩ := a
      have hnd' : (ka :: rest.map Prod.fst).Nodup := by
        simpa only [List.map_cons] using hnd
      obtain ⟨hka, hrest⟩ := List.nodup_cons.mp hnd'
      rcases List.mem_cons.mp hmem with h | h
      · have h1 : c = ka := congrArg Prod.fst h
        have h2 : v = va := congrArg Prod.snd h
        simp [alookup, h1.symm, h2]
      · by_cases hk : ka = c
        · exfalso
          apply hka
          rw [hk]
          exact List.mem_map_of_mem Prod.fst h
        · simp only [alookup, hk, if_false, reduceIte]
          exact ih hrest c v h

lemma sum_addQ {α : Type} [DecidableEq α] :
    ∀ (d : List (α × ℚ)) (k : α) (h : ℚ),
      ((addQ d k h).map Prod.snd).sum = (d.map Prod.snd).sum + h := by
  intro d
  induction d with
  | nil => intro k h; simp [addQ]
  | cons a rest ih =>
      intro k h
      obtain ⟨ka, va⟩ := a
      by_cases h1 : ka = k
      · simp only [addQ, h1, if_pos, reduceIte, List.map_cons, List.sum_cons]
        ring
      · simp only [addQ, h1, if_false, reduceIte, List.map_cons, List.sum_cons]
        rw [ih]
        ring

lemma sum_foldl_addQ {α : Type} [DecidableEq α] :
    ∀ (ps : List (α × ℚ)) (acc : List (α × ℚ)),
      ((ps.foldl (fun t p => addQ t p.1 p.2) acc).map Prod.snd).sum =
        (acc.map Prod.snd).sum + (ps.map Prod.snd).sum := by
  intro ps
  induction ps with
  | nil => intro acc; simp
  | cons p ps ih =>
      intro acc
      simp only [List.foldl_cons, List.map_cons, List.sum_cons]
      rw [ih, sum_addQ]
      ring

lemma weekTotalsFold_eq_filterMap (d : List (String × ℕ)) :
    ∀ (rows : List (List String)) (acc : List (String × ℚ)),
      rows.foldl (fun t row =>
        match rowContrib d row with
        | some p => addQ t p.1 p.2
        | none => t) acc =
      (rows.filterMap (rowContrib d)).foldl (fun t p => addQ t p.1 p.2) acc := by
  intro rows
  induction rows with
  | nil => intro acc; simp
  | cons r rows ih =>
      intro acc
      simp only [List.foldl_cons, List.filterMap_cons]
      cases h : rowContrib d r with
      | none => simp only [h]; exact ih acc
      | some p => simp only [h, List.foldl_cons]; exact ih _

/-- C7, amended: the weekly totals rebuild is a pure function of the
week's rows: for each person it sums the `hours` of exactly those
(parseable) rows whose normalized action is OUT, publishes the per-person
totals rounded to two decimals and sorted by person name
case-insensitively, and appends one `__WEEK_TOTAL__` pseudo-row whose
value is the sum of the *unrounded* per-person totals, rounded once to
two decimals — which can differ both from the exact sum and from the sum
of the rounded per-person values shown in the rows. -/
theorem C7_amended_totals_rebuild (header : List String)
    (dataRows : List (List String)) (now_str : String)
    (h1 : (alookup (idxMap header) "crew").isSome = true)
    (h2 : (alookup (idxMap header) "action").isSome = true)
    (h3 : (alookup (idxMap header) "hours").isSome = true) :
    update_weekly_totals_for_week (header :: dataRows) now_str =
      some ((totalsHeader.map Cell.str) ::
        ((List.insertionSort caseInsLe
            (weekTotalsFold (idxMap header) dataRows)).map
          (fun p => [Cell.str p.1, Cell.num (round2 p.2), Cell.str now_str]) ++
        (if List.insertionSort caseInsLe
            (weekTotalsFold (idxMap header) dataRows) ≠ [] then
          [[Cell.str "__WEEK_TOTAL__",
            Cell.num (round2 (((dataRows.filterMap
              (rowContrib (idxMap header))).map Prod.snd).sum)),
            Cell.str now_str]]
         else []))) ∧
    (∀ p ∈ List.insertionSort caseInsLe (weekTotalsFold (idxMap header) dataRows),
      p.2 = (((dataRows.filterMap (rowContrib (idxMap header))).filter
        (fun q => decide (q.1 = p.1))).map Prod.snd).sum) ∧
    (List.insertionSort caseInsLe
      (weekTotalsFold (idxMap header) dataRows)).Pairwise caseInsLe := by
  have hsum : ((weekTotalsFold (idxMap header) dataRows).map Prod.snd).sum =
      (((dataRows.filterMap (rowContrib (idxMap header))).map Prod.snd).sum) := by
    unfold weekTotalsFold
    rw [weekTotalsFold_eq_filterMap, sum_foldl_addQ]
    simp
  refine ⟨?_, ?_, ?_⟩
  · cases dataRows with
    | nil =>
        unfold update_weekly_totals_for_week
        rw [if_pos (by simp)]
        simp [weekTotalsFold, List.insertionSort]
    | cons r rs =>
        unfold update_weekly_totals_for_week
        rw [if_neg (by simp only [List.length_cons]; omega)]
        dsimp only
        rw [if_pos ⟨h1, h2, h3⟩]
        by_cases hord : List.insertionSort caseInsLe
            (weekTotalsFold (idxMap header) (r :: rs)) = []
        · rw [hord]
          simp [hord]
        · have hlen : ((totalsHeader.map Cell.str) ::
              (List.insertionSort caseInsLe
                (weekTotalsFold (idxMap header) (r :: rs))).map
                (fun p => [Cell.str p.1, Cell.num (round2 p.2),
                  Cell.str now_str])).length > 1 := by
            simp only [List.length_cons, List.length_map, gt_iff_lt]
            have := List.length_pos.mpr hord
            omega
          rw [if_pos hlen, if_pos hord, hsum]
          simp
  · intro p hp
    have hp' : p ∈ weekTotalsFold (idxMap header) dataRows :=
      (List.perm_insertionSort caseInsLe _).mem_iff.mp hp
    have hnodup : (((dataRows.filterMap (rowContrib (idxMap header))).foldl
        (fun t p => addQ t p.1 p.2) []).map Prod.fst).Nodup :=
      nodup_fst_foldl_addQ _ [] (by simp)
    have halk : alookup (weekTotalsFold (idxMap header) dataRows) p.1 =
        some p.2 := by
      unfold weekTotalsFold
      rw [weekTotalsFold_eq_filterMap]
      apply alookup_of_mem_nodup _ hnodup
      rw [← weekTotalsFold_eq_filterMap]
      simpa using hp'
    have : lookupQ (weekTotalsFold (idxMap header) dataRows) p.1 = p.2 := by
      unfold lookupQ
      rw [halk]
      rfl
    rw [← this]
    unfold weekTotalsFold
    rw [weekTotalsFold_eq_filterMap, lookupQ_foldl]
    simp [lookupQ, alookup]
  · exact List.sorted_insertionSort caseInsLe _

theorem C7_witness :
    ((alookup (idxMap ["crew", "action", "hours"]) "crew").isSome = true) ∧
    ((alookup (idxMap ["crew", "action", "hours"]) "action").isSome = true) ∧
    ((alookup (idxMap ["crew", "action", "hours"]) "hours").isSome = true) ∧
    update_weekly_totals_for_week
        [["crew", "action", "hours"], ["A", "OUT", "1"]] "T" =
      some [[Cell.str "crew", Cell.str "total_hours", Cell.str "updated_at"],
        [Cell.str "A", Cell.num 1, Cell.str "T"],
        [Cell.str "__WEEK_TOTAL__", Cell.num 1, Cell.str "T"]] := by
  have h := C7_amended_totals_rebuild ["crew", "action", "hours"]
    [["A", "OUT", "1"]] "T" (by decide) (by decide) (by decide)
  refine ⟨by decide, by decide, by decide, ?_⟩
  rw [h.1]
  have hrc : rowContrib (idxMap ["crew", "action", "hours"]) ["A", "OUT", "1"] =
      some ("A", 1) := by
    simp +decide only [rowContrib, idxMap, List.enum, List.enumFrom, setVal,
      alookup, List.foldl, List.get?, parseFloat, parseFloat.parseUnsigned,
      splitDot, digitsToNat, digitVal_one, reduceIte]
  have hfold : weekTotalsFold (idxMap ["crew", "action", "hours"])
      [["A", "OUT", "1"]] = [("A", 1)] := by
    unfold weekTotalsFold
    simp only [List.foldl_cons, List.foldl_nil, hrc, addQ]
  rw [hfold]
  simp only [hrc, List.filterMap_cons, List.filterMap_nil]
  simp +decide only [List.insertionSort, List.orderedInsert, List.map,
    totalsHeader, reduceIte]
  norm_num [round2, roundHalfEven]

/-- C7, counterexample: with rows `A OUT 0.003` and `B OUT 0.003` the
published per-person totals are both `0` (rounded), while the
`__WEEK_TOTAL__` pseudo-row holds `round2(0.006) = 0.01`, which equals
neither the sum of the published per-person totals (`0`) nor the exact
sum of the per-person totals (`0.006`). -/
theorem C7_counterexample :
    update_weekly_totals_for_week
        [["crew", "action", "hours"],
         ["A", "OUT", "0.003"], ["B", "OUT", "0.003"]] "T" =
      some [[Cell.str "crew", Cell.str "total_hours", Cell.str "updated_at"],
        [Cell.str "A", Cell.num 0, Cell.str "T"],
        [Cell.str "B", Cell.num 0, Cell.str "T"],
        [Cell.str "__WEEK_TOTAL__", Cell.num (1/100), Cell.str "T"]] ∧
    (1/100 : ℚ) ≠ 0 + 0 ∧ (1/100 : ℚ) ≠ 3/1000 + 3/1000 := by
  have hpf : parseFloat "0.003" = some (3/1000) := by
    simp +decide only [parseFloat, parseFloat.parseUnsigned, splitDot,
      digitsToNat, List.foldl, digitVal_zero, digitVal_three, reduceIte]
    norm_num
  have hrcA : rowContrib (idxMap ["crew", "action", "hours"])
      ["A", "OUT", "0.003"] = some ("A", 3/1000) := by
    simp +decide only [rowContrib, idxMap, List.enum, List.enumFrom, setVal,
      alookup, List.foldl, List.get?, reduceIte]
    rw [show pyStrip "0.003" = "0.003" from by decide, hpf]
    simp [show pyStrip "A" = "A" from by decide]
  have hrcB : rowContrib (idxMap ["crew", "action", "hours"])
      ["B", "OUT", "0.003"] = some ("B", 3/1000) := by
    simp +decide only [rowContrib, idxMap, List.enum, List.enumFrom, setVal,
      alookup, List.foldl, List.get?, reduceIte]
    rw [show pyStrip "0.003" = "0.003" from by decide, hpf]
    simp [show pyStrip "B" = "B" from by decide]
  refine ⟨?_, by norm_num, by norm_num⟩
  unfold update_weekly_totals_for_week
  rw [if_neg (by simp)]
  dsimp only
  rw [if_pos (by decide)]
  have hfold : weekTotalsFold (idxMap ["crew", "action", "hours"])
      [["A", "OUT", "0.003"], ["B", "OUT", "0.003"]] =
      [("A", 3/1000), ("B", 3/1000)] := by
    unfold weekTotalsFold
    simp +decide only [List.foldl_cons, List.foldl_nil, hrcA, hrcB, addQ,
      reduceIte]
  rw [hfold]
  have hsorted : List.insertionSort caseInsLe [("A", (3:ℚ)/1000), ("B", 3/1000)]
      = [("A", 3/1000), ("B", 3/1000)] := by
    apply List.Sorted.insertionSort_eq
    refine List.Pairwise.cons ?_ (List.pairwise_singleton _ _)
    intro b hb
    rw [List.mem_singleton.mp hb]
    decide
  rw [hsorted]
  simp only [List.map_cons, List.map_nil, List.length_cons, totalsHeader]
  rw [if_pos (by simp)]
  simp only [List.map_cons, List.map_nil, List.sum_cons, List.sum_nil]
  norm_num [round2, roundHalfEven]

lemma take2_triple {a b c : Cell} : List.take 2 [a, b, c] = [a, b] := rfl

/-- C8, amended: running the weekly totals rebuild twice over the same
week rows yields output identical except for the wall-clock `updated_at`
column (byte-identical when the clock string is the same): dropping that
column, the published rows do not depend on the rebuild instant at all.
The rebuild recomputes every total from the authoritative per-punch rows
(it is a pure function of them), so it is safely re-runnable any number
of times without double-counting. -/
theorem C8_amended_stable_modulo_timestamp (values : List (List String))
    (n1 n2 : String) :
    Option.map (List.map (fun r => List.take 2 r))
        (update_weekly_totals_for_week values n1) =
      Option.map (List.map (fun r => List.take 2 r))
        (update_weekly_totals_for_week values n2) := by
  unfold update_weekly_totals_for_week
  by_cases hlen : values.length < 2
  · rw [if_pos hlen, if_pos hlen]
  · rw [if_neg hlen, if_neg hlen]
    cases values with
    | nil => rfl
    | cons header dataRows =>
        dsimp only
        by_cases hcols : ((alookup (idxMap header) "crew").isSome = true ∧
            (alookup (idxMap header) "action").isSome = true ∧
            (alookup (idxMap header) "hours").isSome = true)
        · rw [if_pos hcols, if_pos hcols]
          simp only [List.length_cons, List.length_map]
          by_cases hord : (List.insertionSort caseInsLe
              (weekTotalsFold (idxMap header) dataRows)).length + 1 > 1
          · rw [if_pos hord, if_pos hord]
            simp [take2_triple, Function.comp]
          · rw [if_neg hord, if_neg hord]
            simp [take2_triple, Function.comp]
        · rw [if_neg hcols, if_neg hcols]

/-- Evaluation of the totals rebuild on one `A OUT 1` row, for any clock
string: the published rows embed the clock string in the `updated_at`
column. -/
lemma totals_rebuild_single_row (n : String) :
    update_weekly_totals_for_week
        [["crew", "action", "hours"], ["A", "OUT", "1"]] n =
      some [[Cell.str "crew", Cell.str "total_hours", Cell.str "updated_at"],
        [Cell.str "A", Cell.num 1, Cell.str n],
        [Cell.str "__WEEK_TOTAL__", Cell.num 1, Cell.str n]] := by
  have hrc : rowContrib (idxMap ["crew", "action", "hours"]) ["A", "OUT", "1"] =
      some ("A", 1) := by
    simp +decide only [rowContrib, idxMap, List.enum, List.enumFrom, setVal,
      alookup, List.foldl, List.get?, parseFloat, parseFloat.parseUnsigned,
      splitDot, digitsToNat, digitVal_one, reduceIte]
  unfold update_weekly_totals_for_week
  rw [if_neg (by simp)]
  dsimp only
  rw [if_pos (by decide)]
  have hfold : weekTotalsFold (idxMap ["crew", "action", "hours"])
      [["A", "OUT", "1"]] = [("A", 1)] := by
    unfold weekTotalsFold
    simp only [List.foldl_cons, List.foldl_nil, hrc, addQ]
  rw [hfold]
  simp only [List.insertionSort, List.orderedInsert, List.map_cons,
    List.map_nil, List.length_cons, totalsHeader]
  rw [if_pos (by simp)]
  simp only [List.map_cons, List.map_nil, List.sum_cons, List.sum_nil]
  norm_num [round2, roundHalfEven]

/-- C8, counterexample: rebuilding the same week rows at two different
clock instants does not yield byte-identical output: the `updated_at`
cells differ. -/
theorem C8_counterexample :
    update_weekly_totals_for_week
        [["crew", "action", "hours"], ["A", "OUT", "1"]] "2024-01-01 00:00:00" ≠
      update_weekly_totals_for_week
        [["crew", "action", "hours"], ["A", "OUT", "1"]] "2024-01-01 00:00:01" := by
  rw [totals_rebuild_single_row, totals_rebuild_single_row]
  intro h
  simp only [Option.some.injEq, List.cons.injEq, Cell.str.injEq,
    Cell.num.injEq, eq_self_iff_true, true_and, and_true] at h
  exact absurd h.1 (by decide)

lemma exists_four {α : Type} :
    ∀ (row : List α), row.length = 4 → ∃ a b c d, row = [a, b, c, d] := by
  intro row h
  cases row with
  | nil => simp at h
  | cons a r1 =>
      cases r1 with
      | nil => simp at h
      | cons b r2 =>
          cases r2 with
          | nil => simp at h
          | cons c r3 =>
              cases r3 with
              | nil => simp at h
              | cons d r4 =>
                  cases r4 with
                  | nil => exact ⟨a, b, c, d, rfl⟩
                  | cons e r5 =>
                      simp only [List.length_cons, List.length_nil] at h
                      omega

lemma keepRows_std_header (wt : String) :
    ∀ (rows : List (List String)), (∀ r ∈ rows, r.length = 4) →
      keepRows (idxMap allWeeksHeader) wt rows =
        some ((rows.filter (fun r => decide (r.headD "" ≠ wt))).map
          (List.map Cell.str)) := by
  intro rows
  induction rows with
  | nil => intro _; simp [keepRows]
  | cons row rest ih =>
      intro hlen
      obtain ⟨a, b, c, d, rfl⟩ := exists_four row (hlen row (by simp))
      have hrest := ih (fun r hr => hlen r (by simp [hr]))
      by_cases ha : a = wt
      · have hkeep : rowKeep (idxMap allWeeksHeader) wt [a, b, c, d] =
            some none := by
          unfold rowKeep
          rw [if_neg (by simp), if_pos (by simpa using ha)]
        simp only [keepRows, hkeep, hrest, List.filter_cons]
        have : decide (([a, b, c, d].headD "" ≠ wt)) = false := by
          simp [ha]
        rw [this]
        simp
      · have hkeep : rowKeep (idxMap allWeeksHeader) wt [a, b, c, d] =
            some (some [Cell.str a, Cell.str b, Cell.str c, Cell.str d]) := by
          unfold rowKeep
          rw [if_neg (by simp), if_neg (by simpa using ha)]
          simp +decide only [idxGet, idxMap, List.enum, List.enumFrom,
            List.foldl, setVal, alookup, List.get?, reduceIte]
        simp only [keepRows, hkeep, hrest, List.filter_cons]
        have : decide (([a, b, c, d].headD "" ≠ wt)) = true := by
          simp [ha]
        rw [this]
        simp

/-- C9: rebuilding the published summary for one week bucket recomputes
only that bucket's rows and replaces them, while every well-formed
(4-cell) published row of any other bucket is preserved verbatim, in
order; every freshly published row carries the rebuilt bucket's key. -/
theorem C9_rebuild_preserves_other_buckets (dataRows : List (List String))
    (wt ua : String) (tot : List (String × ℚ))
    (hlen : ∀ r ∈ dataRows, r.length = 4) :
    update_all_weeks_summary (allWeeksHeader :: dataRows) wt tot ua =
      some ((allWeeksHeader.map Cell.str) ::
        ((dataRows.filter (fun r => decide (r.headD "" ≠ wt))).map
            (List.map Cell.str) ++
          (tot.map (fun p => [Cell.str wt, Cell.str p.1, Cell.num (round2 p.2),
              Cell.str ua]) ++
            (if tot ≠ [] then
              [[Cell.str wt, Cell.str "__WEEK_TOTAL__",
                Cell.num (round2 (tot.map Prod.snd).sum), Cell.str ua]]
             else [])))) ∧
    (∀ row ∈ tot.map (fun p => [Cell.str wt, Cell.str p.1, Cell.num (round2 p.2),
          Cell.str ua]) ++
        (if tot ≠ [] then
          [[Cell.str wt, Cell.str "__WEEK_TOTAL__",
            Cell.num (round2 (tot.map Prod.snd).sum), Cell.str ua]]
         else []),
      row.head? = some (Cell.str wt)) := by
  constructor
  · unfold update_all_weeks_summary
    cases dataRows with
    | nil => simp
    | cons r rs =>
        dsimp only
        rw [if_neg (by simp)]
        rw [keepRows_std_header wt (r :: rs) hlen]
  · intro row hrow
    rcases List.mem_append.mp hrow with h | h
    · obtain ⟨p, _, rfl⟩ := List.mem_map.mp h
      rfl
    · by_cases htot : tot = []
      · rw [if_neg (by simp [htot])] at h
        simp at h
      · rw [if_pos htot] at h
        rw [List.mem_singleton.mp h]
        rfl

theorem C9_witness :
    (∀ r ∈ [["Week 2024-01", "A", "1", "x"], ["Week 2024-02", "B", "2", "y"]],
      r.length = 4) ∧
    update_all_weeks_summary
        (allWeeksHeader ::
          [["Week 2024-01", "A", "1", "x"], ["Week 2024-02", "B", "2", "y"]])
        "Week 2024-02" [("C", 1/2)] "u" =
      some [allWeeksHeader.map Cell.str,
        [Cell.str "Week 2024-01", Cell.str "A", Cell.str "1", Cell.str "x"],
        [Cell.str "Week 2024-02", Cell.str "C", Cell.num (1/2), Cell.str "u"],
        [Cell.str "Week 2024-02", Cell.str "__WEEK_TOTAL__", Cell.num (1/2),
          Cell.str "u"]] := by
  have h := C9_rebuild_preserves_other_buckets
    [["Week 2024-01", "A", "1", "x"], ["Week 2024-02", "B", "2", "y"]]
    "Week 2024-02" "u" [("C", 1/2)] (by decide)
  refine ⟨by decide, ?_⟩
  rw [h.1]
  simp +decide only [List.filter_cons, List.filter_nil, List.map_cons,
    List.map_nil, List.sum_cons, List.sum_nil, reduceIte]
  norm_num [round2, roundHalfEven]

end CrewClock
